import Mathlib

/-!
Verification of the RenameClassesV2 pass (src/opt/renameclasses/RenameClassesV2.cpp).

The development shallowly embeds the pass: classes, methods, fields and
annotations become Lean structures; the exclusion-decision engine
(eval_classes), the identifier encoder (getident / get_next_ident), the
visibility normalisation (unpackage_private) and the commit loop
(rename_classes / run_pass) become Lean functions translated clause by
clause from the C++ source.  Machine integers are modelled as Nat (all
quantities involved are small and non-negative); C strings become Lean
String / List Char.
-/

/-! ## String helpers -/

/-- Bytes of a string as chars, occurrence test of a pattern at index i.
Mirrors a memcmp of pat against s+i. -/
def occursAt (s pat : List Char) (i : Nat) : Bool :=
  ((s.drop i).take pat.length) == pat

/-- Substring containment, mirroring C strstr (used for the canary marker). -/
def strContains (s pat : String) : Bool :=
  (List.range (s.toList.length + 1)).any fun i => occursAt s.toList pat.toList i

/-- Mirrors the test `strname.rfind("L"+pkg) == 0` of the source: the LAST
occurrence of pat in s is at index 0, i.e. pat occurs at 0 and at no
positive index. -/
def rfindZero (s pat : String) : Bool :=
  occursAt s.toList pat.toList 0 &&
    ((List.range (s.toList.length + 1)).all fun i => i == 0 || !occursAt s.toList pat.toList i)

/-- Modelled from the spec: JavaNameUtil::external_to_internal (not under
src/) turns a dotted external name "foo.bar.Baz" into the internal
descriptor "Lfoo/bar/Baz;". -/
def externalToInternal (s : String) : String :=
  "L" ++ String.mk (s.toList.map fun ch => if ch == '.' then '/' else ch) ++ ";"

/-! ## Identifier encoder (getident / get_next_ident) -/

/-- MAX_IDENT_CHAR / BASE of the source. -/
def BASE : Nat := 62

/-- MAX_IDENT = 62^3 of the source. -/
def MAX_IDENT : Nat := BASE * BASE * BASE

/-- Precondition asserted at the top of getident: `num >= 0 && num < BASE`
(a debug-only `assert` in the source). -/
def getidentPre (num : Nat) : Bool := num < BASE

/-- Translation of `getident` (release behaviour: the branch arithmetic,
performed unconditionally).  '0' = 0x30, 'A' = 0x41, 'a' = 0x61. -/
def getidentChar (num : Nat) : Char :=
  if num < 10 then Char.ofNat (0x30 + num)
  else if 10 ≤ num ∧ num < 36 then Char.ofNat (0x41 + num - 10)
  else Char.ofNat (0x61 + num - 26 - 10)

/-- The characters `get_next_ident` writes into `out` for input num
(faithful to the sequence of writes: optional top digit, optional middle
digit, mandatory low digit). -/
def encodeChars (num : Nat) : List Char :=
  let mid := num / BASE
  let top := mid / BASE
  let ds1 : List Char := if top ≠ 0 then [getidentChar top] else []
  let low2 := if top ≠ 0 then num - top * BASE * BASE else num
  let ds2 : List Char := if mid ≠ 0 then [getidentChar (mid - top * BASE)] else []
  let low3 := if mid ≠ 0 then low2 - (mid - top * BASE) * BASE else low2
  ds1 ++ ds2 ++ [getidentChar low3]

/-- Guard of the `always_assert_log(num <= MAX_IDENT, ...)` in
get_next_ident; when it fails the run aborts. -/
def identGuard (num : Nat) : Bool := num ≤ MAX_IDENT

/-- `get_next_ident`: none models the fatal always_assert_log, some the
string written to `out`. -/
def get_next_ident (num : Nat) : Option String :=
  if identGuard num then some (String.mk (encodeChars num)) else none

/-- Left inverse of getidentChar on the alphabet, used to prove the
encoder injective. -/
def decodeChar (c : Char) : Nat :=
  if c.toNat < 0x3A then c.toNat - 0x30
  else if c.toNat < 0x5B then c.toNat - 0x41 + 10
  else c.toNat - 0x61 + 36

/-- Base-62 value of a digit string. -/
def decodeChars (l : List Char) : Nat :=
  l.foldl (fun a c => a * BASE + decodeChar c) 0

/-- Exact value of `std::ceil(std::log(total) / std::log(BASE))` computed by
run_pass: the least k with 62^k ≥ n (the source computes it in floating
point, which agrees away from exact powers of 62 — all inputs used in the
theorems below are far from those points).  The cases up to 62^3 = 238328
are spelled out so the kernel can evaluate the function on every count the
identifier space admits; the last case covers the remaining integers. -/
def paddingOf (n : Nat) : Nat :=
  if n ≤ 1 then 0
  else if n ≤ 62 then 1
  else if n ≤ 3844 then 2
  else if n ≤ 238328 then 3
  else Nat.log BASE (n - 1) + 1

/-! ## Data model -/

/-- A method reference as seen at a call site: declaring class (type
descriptor), simple name, and whether it resolves to a concrete method. -/
structure MethodRefM where
  cls : String
  mname : String
  concrete : Bool
deriving DecidableEq

/-- Instructions, reduced to the shapes the pass inspects: const-string
(with destination register), invokes (static or not, with source registers
and the referenced method — none when get_method yields null), and
anything else. -/
inductive InsnM where
  | constString (dest : Nat) (lit : String)
  | invoke (staticCall : Bool) (srcs : List Nat) (callee : Option MethodRefM)
  | other
deriving DecidableEq

/-- One element of an annotation (name plus DEVT_INT encoded value). -/
structure AnnoElemM where
  ename : String
  value : Nat
deriving DecidableEq

/-- An annotation instance: its type descriptor and its elements. -/
structure AnnoM where
  atype : String
  elems : List AnnoElemM
deriving DecidableEq

/-- A method: access flags, return type, argument types, body, annotations. -/
structure MethodM where
  access : Nat
  rtype : String
  args : List String
  insns : List InsnM
  annos : List AnnoM
deriving DecidableEq

/-- A field: access flags and annotations. -/
structure FieldM where
  access : Nat
  annos : List AnnoM
deriving DecidableEq

/-- A class of the scope.  canRenameIfIgnoringBlanketKeep models the
external keep-rule oracle can_rename_if_ignoring_blanket_keep; deobfName
models get_deobfuscated_name (used for the mapping file). -/
structure ClassM where
  name : String
  deobfName : String
  isAnnotation : Bool
  isExternal : Bool
  access : Nat
  annos : List AnnoM
  dmethods : List MethodM
  vmethods : List MethodM
  sfields : List FieldM
  ifields : List FieldM
  canRenameIfIgnoringBlanketKeep : Bool
deriving DecidableEq

/-- All methods of a class, direct then virtual (the order the builders
walk them). -/
def methodsOf (c : ClassM) : List MethodM := c.dmethods ++ c.vmethods

/-- Configuration options of the pass. -/
structure ConfigM where
  renameAnnotations : Bool
  dontRenameSpecific : List String
  dontRenamePackages : List String
  dontRenameAnnotated : List String
  dontRenameTypesWithReflection : List String
  dontRenameHierarchies : List String
deriving DecidableEq

/-- Collaborator-supplied inputs: the resource name set (apk-derived,
build_dont_rename_resources), the proguard-map class translation (as an
association list; absent means translate_class returns ""), the
name-to-type resolver (which type descriptors exist), and the computed
hierarchy map type → matched root (the children/implementors closure of
build_dont_rename_hierarchies is produced by external walkers). -/
structure ExternalM where
  resources : List String
  translations : List (String × String)
  knownTypes : List String
  hierarchies : List (String × String)
deriving DecidableEq

/-- ProguardMap::translate_class. -/
def translateClass (ext : ExternalM) (s : String) : String :=
  (ext.translations.lookup s).getD ""

/-- DexType::get_type(s) != nullptr. -/
def knownType (ext : ExternalM) (s : String) : Bool :=
  ext.knownTypes.contains s

/-! ## The dont_rename_* set builders -/

/-- ACC_NATIVE access-flag bit. -/
def ACC_NATIVE : Nat := 0x100

/-- Test of `meth->get_access() & ACC_NATIVE`. -/
def isNative (m : MethodM) : Bool := m.access &&& ACC_NATIVE != 0

/-- is_array: a type descriptor beginning with a bracket. -/
def isArrayName (t : String) : Bool := t.toList.headD ' ' == '['

/-- Modelled from the spec: get_array_type (not under src/) strips exactly
one array dimension — deeper nesting is not recursively unwrapped
(documented limitation). -/
def getArrayTypeName (t : String) : String := String.mk t.toList.tail

/-- The entries one method contributes in
build_dont_rename_native_bindings: for a native method, the declaring
class, the return type as declared, and each argument type with one array
dimension stripped. -/
def nbOfMethod (cname : String) (m : MethodM) : List String :=
  if isNative m then
    cname :: m.rtype :: m.args.map (fun a => if isArrayName a then getArrayTypeName a else a)
  else []

/-- build_dont_rename_native_bindings (dmethods then vmethods of every
class; the std::set is modelled as a list with membership semantics). -/
def buildNB (scope : List ClassM) : List String :=
  scope.flatMap fun c =>
    (c.dmethods.flatMap (nbOfMethod c.name)) ++ (c.vmethods.flatMap (nbOfMethod c.name))

/-- build_dont_rename_canaries: class names containing the canary marker. -/
def buildCanaries (scope : List ClassM) : List String :=
  (scope.filter (fun c => strContains c.name "/Canary")).map (·.name)

/-- The set of resolved reflection-capable types: each configured name is
translated through the proguard map (falling back to the original when the
translation is empty) and kept only when it resolves to a known type. -/
def reflTypes (cfg : ConfigM) (ext : ExternalM) : List String :=
  cfg.dontRenameTypesWithReflection.filterMap fun s =>
    let t := translateClass ext s
    let t := if t == "" then s else t
    if knownType ext t then some t else none

/-- The per-instruction test of
build_dont_rename_for_types_with_reflection: a method-bearing instruction
whose callee resolves, is concrete, and is declared on a reflection type. -/
def reflHit (rt : List String) (i : InsnM) : Bool :=
  match i with
  | .invoke _ _ (some r) => r.concrete && rt.contains r.cls
  | _ => false

/-- build_dont_rename_for_types_with_reflection: for every matching call
site anywhere in a class's methods, the caller's class name is recorded. -/
def reflCallers (rt : List String) (scope : List ClassM) : List String :=
  scope.flatMap fun c => (methodsOf c).flatMap fun m =>
    m.insns.filterMap fun i => if reflHit rt i then some c.name else none

/-- Composition used by eval_classes. -/
def buildRefl (cfg : ConfigM) (ext : ExternalM) (scope : List ClassM) : List String :=
  reflCallers (reflTypes cfg ext) scope

/-- The two-instruction window test of
build_dont_rename_class_for_name_literals: a const-string directly
followed by a 1-argument invoke-static of Ljava/lang/Class;.forName whose
source register equals the const-string destination. -/
def forNameHit (pr : InsnM × InsnM) : Option String :=
  match pr with
  | (.constString d lit, .invoke true srcs (some r)) =>
    if r.mname == "forName" && r.cls == "Ljava/lang/Class;" && srcs.length == 1
        && srcs.getD 0 0 == d
    then some (externalToInternal lit) else none
  | _ => none

/-- build_dont_rename_class_for_name_literals over all consecutive
instruction pairs of all methods. -/
def buildForName (scope : List ClassM) : List String :=
  scope.flatMap fun c => (methodsOf c).flatMap fun m =>
    (m.insns.zip m.insns.tail).filterMap forNameHit

/-- build_dont_rename_annotated: configured annotation names that resolve
to existing types. -/
def buildAnnotated (cfg : ConfigM) (ext : ExternalM) : List String :=
  cfg.dontRenameAnnotated.filter (knownType ext)

/-- The seven dont_rename_* sets eval_classes consults. -/
structure DontRenameSetsM where
  forNameLiterals : List String
  typesWithReflection : List String
  canaries : List String
  resources : List String
  hierarchies : List (String × String)
  nativeBindings : List String
  annotated : List String
deriving DecidableEq

/-- The builder calls at the top of eval_classes. -/
def buildSets (cfg : ConfigM) (ext : ExternalM) (scope : List ClassM) : DontRenameSetsM :=
  { forNameLiterals := buildForName scope
    typesWithReflection := buildRefl cfg ext scope
    canaries := buildCanaries scope
    resources := ext.resources
    hierarchies := ext.hierarchies
    nativeBindings := buildNB scope
    annotated := buildAnnotated cfg ext }

/-! ## The exclusion decision (eval_classes) -/

/-- DontRenameReasonCode of the source. -/
inductive DontRenameReasonCode where
  | Annotated
  | Annotations
  | Specific
  | Packages
  | Hierarchy
  | Resources
  | ClassForNameLiterals
  | Canaries
  | NativeBindings
  | ClassForTypesWithReflection
  | ProguardCantRename
deriving DecidableEq

/-- has_anno over the class's annotation set (the configured types are
pre-resolved, so the nullptr guard is subsumed). -/
def hasAnno (c : ClassM) (t : String) : Bool :=
  c.annos.any (fun a => a.atype == t)

/-- The per-class body of the eval_classes loop, translated clause by
clause: each guard either records a reason (with its rule string) and
continues to the next class, or falls through to the next guard. -/
def evalClass (cfg : ConfigM) (s : DontRenameSetsM) (c : ClassM) :
    Option (DontRenameReasonCode × String) :=
  if !cfg.renameAnnotations && c.isAnnotation then some (.Annotations, "") else
  match s.annotated.find? (fun anno => hasAnno c anno) with
  | some anno => some (.Annotated, anno)
  | none =>
  if s.resources.contains c.name then some (.Resources, "") else
  if cfg.dontRenameSpecific.contains c.name then some (.Specific, c.name) else
  match cfg.dontRenamePackages.find? (fun pkg => rfindZero c.name ("L" ++ pkg)) with
  | some pkg => some (.Packages, pkg)
  | none =>
  if s.forNameLiterals.contains c.name then some (.ClassForNameLiterals, "") else
  if s.typesWithReflection.contains c.name then some (.ClassForTypesWithReflection, "") else
  if s.canaries.contains c.name then some (.Canaries, "") else
  if s.nativeBindings.contains c.name then some (.NativeBindings, "") else
  match s.hierarchies.lookup c.name with
  | some rule => some (.Hierarchy, rule)
  | none =>
  if !c.canRenameIfIgnoringBlanketKeep then some (.ProguardCantRename, "") else
  none

/-- The decision map m_dont_rename_reasons as an association list keyed by
class name, in scope order. -/
def evalClasses (cfg : ConfigM) (s : DontRenameSetsM) (scope : List ClassM) :
    List (String × (DontRenameReasonCode × String)) :=
  scope.filterMap fun c => (evalClass cfg s c).map (fun r => (c.name, r))

/-! ## The spec-shaped detector chain (for the priority-order claim) -/

/-- Each detector in isolation: none when the detector does not match,
some rule-detail when it does. -/
def detectorResult (cfg : ConfigM) (s : DontRenameSetsM) (c : ClassM) :
    DontRenameReasonCode → Option String
  | .Annotations => if !cfg.renameAnnotations && c.isAnnotation then some "" else none
  | .Annotated => s.annotated.find? (fun anno => hasAnno c anno)
  | .Resources => if s.resources.contains c.name then some "" else none
  | .Specific => if cfg.dontRenameSpecific.contains c.name then some c.name else none
  | .Packages => cfg.dontRenamePackages.find? (fun pkg => rfindZero c.name ("L" ++ pkg))
  | .ClassForNameLiterals => if s.forNameLiterals.contains c.name then some "" else none
  | .ClassForTypesWithReflection =>
      if s.typesWithReflection.contains c.name then some "" else none
  | .Canaries => if s.canaries.contains c.name then some "" else none
  | .NativeBindings => if s.nativeBindings.contains c.name then some "" else none
  | .Hierarchy => s.hierarchies.lookup c.name
  | .ProguardCantRename => if !c.canRenameIfIgnoringBlanketKeep then some "" else none

/-- The fixed priority order of the eleven detectors. -/
def detectorOrder : List DontRenameReasonCode :=
  [.Annotations, .Annotated, .Resources, .Specific, .Packages, .ClassForNameLiterals,
   .ClassForTypesWithReflection, .Canaries, .NativeBindings, .Hierarchy, .ProguardCantRename]

/-- First matching detector in priority order. -/
def firstMatch (cfg : ConfigM) (s : DontRenameSetsM) (c : ClassM) :
    Option (DontRenameReasonCode × String) :=
  detectorOrder.findSome? fun r => (detectorResult cfg s c r).map (fun d => (r, d))

/-! ## Visibility normalisation (unpackage_private) -/

/-- ACC_PUBLIC access-flag bit. -/
def ACC_PUBLIC : Nat := 0x1

/-- VISIBILITY_MASK = ACC_PUBLIC | ACC_PRIVATE | ACC_PROTECTED. -/
def VISIBILITY_MASK : Nat := 0x7

/-- Modelled from the spec: set_public (not under src/) replaces the
visibility bits with ACC_PUBLIC (flags are 32-bit). -/
def setPublicAcc (a : Nat) : Nat := (a &&& 0xFFFFFFF8) ||| ACC_PUBLIC

/-- Modelled from the spec: is_package_protected (not under src/) — no
visibility bit set (default, package-level access). -/
def isPackageProtected (a : Nat) : Bool := a &&& VISIBILITY_MASK == 0

/-- The accessFlags rewrite of the InnerClass fixup:
`(value & ~VISIBILITY_MASK) | ACC_PUBLIC`. -/
def fixInnerVisibility (v : Nat) : Nat := (v &&& 0xFFFFFFF8) ||| ACC_PUBLIC

/-- The walk_annotations body of unpackage_private: on a
dalvik/annotation/InnerClass annotation, every element named accessFlags
has its visibility bits replaced with public. -/
def unpackAnno (an : AnnoM) : AnnoM :=
  if an.atype == "Ldalvik/annotation/InnerClass;" then
    { an with elems := an.elems.map fun e =>
        if e.ename == "accessFlags" then { e with value := fixInnerVisibility e.value } else e }
  else an

/-- walk_methods body: package-protected methods become public. -/
def unpackMethod (m : MethodM) : MethodM :=
  { m with access := if isPackageProtected m.access then setPublicAcc m.access else m.access
           annos := m.annos.map unpackAnno }

/-- walk_fields body: package-protected fields become public. -/
def unpackField (f : FieldM) : FieldM :=
  { f with access := if isPackageProtected f.access then setPublicAcc f.access else f.access
           annos := f.annos.map unpackAnno }

/-- unpackage_private on one class: non-external classes are made public,
members are unpackaged, InnerClass annotations are fixed. -/
def unpackClass (c : ClassM) : ClassM :=
  { c with access := if c.isExternal then c.access else setPublicAcc c.access
           annos := c.annos.map unpackAnno
           dmethods := c.dmethods.map unpackMethod
           vmethods := c.vmethods.map unpackMethod
           sfields := c.sfields.map unpackField
           ifields := c.ifields.map unpackField }

/-- unpackage_private over the whole scope. -/
def unpackagePrivate (scope : List ClassM) : List ClassM := scope.map unpackClass

/-! ## Descriptor construction and the commit loop (rename_classes) -/

/-- The literal `const char* padding = "0000000000000"` (13 zeros). -/
def paddingTemplate : List Char := List.replicate 13 '0'

/-- The `sprintf(descriptor, "LX/%.*s%s;", prec, padding, clzname)` of the
source, with prec = `(s_padding < strlen(clzname)) ? 0 : s_padding - strlen(clzname)`
(%.*s prints at most prec characters of the 13-char template). -/
def mkDescriptor (padding seq : Nat) : String :=
  let clz := encodeChars seq
  let prec := if padding < clz.length then 0 else padding - clz.length
  String.mk ('L' :: 'X' :: '/' :: (paddingTemplate.take prec ++ clz ++ [';']))

/-- The rename_classes main loop: classes with a decision record are
skipped; each remaining class is paired with the descriptor of the current
sequence number, which is then incremented. -/
def renameLoop (padding : Nat) (decided : String → Bool) :
    List ClassM → Nat → List (ClassM × String)
  | [], _ => []
  | c :: rest, seq =>
    if decided c.name then renameLoop padding decided rest seq
    else (c, mkDescriptor padding seq) :: renameLoop padding decided rest (seq + 1)

/-- Result of the commit phase: the post-state classes, the class alias
map (old name → new descriptor, insertion order), and the mapping-file
lines. -/
structure CommitResult where
  classes : List ClassM
  renames : List (String × String)
  mappingLines : List String
deriving DecidableEq

/-- assign_name_alias as seen on the class state: a class whose old name
has an alias gets the new descriptor as its name; nothing else changes. -/
def applyAlias (renames : List (String × String)) (c : ClassM) : ClassM :=
  match renames.lookup c.name with
  | some d => { c with name := d }
  | none => c

/-- rename_classes: unpackage_private first, then the rename loop
(assign_name_alias modelled as the name update via applyAlias), then the
mapping lines `deobfuscated -> descriptor` for every class alias (the
source iterates the alias std::map; the model uses insertion order). -/
def renameClasses (decided : String → Bool) (padding : Nat) (scope : List ClassM) :
    CommitResult :=
  let scope1 := unpackagePrivate scope
  let rl := renameLoop padding decided scope1 0
  let renames := rl.map (fun p => (p.1.name, p.2))
  { classes := scope1.map (applyAlias renames)
    renames := renames
    mappingLines := rl.map (fun p => p.1.deobfName ++ " -> " ++ p.2 ++ "\n") }

/-! ## run_pass -/

/-- Result of one run: the padding width chosen and the commit output. -/
structure RunResult where
  padding : Nat
  commit : CommitResult
deriving DecidableEq

/-- run_pass: reset counters, compute s_padding from the TOTAL number of
classes in scope, evaluate (eval_pass populates m_dont_rename_reasons from
the same scope) and commit. -/
def runPass (cfg : ConfigM) (ext : ExternalM) (scope : List ClassM) : RunResult :=
  let total := scope.length
  let padding := paddingOf total
  let sets := buildSets cfg ext scope
  let decisions := evalClasses cfg sets scope
  let decided := fun nm => (decisions.lookup nm).isSome
  { padding := padding
    commit := renameClasses decided padding scope }

/-- Number of classes with no decision record (eligible for rename). -/
def eligibleCount (cfg : ConfigM) (s : DontRenameSetsM) (scope : List ClassM) : Nat :=
  (scope.filter (fun c => (evalClass cfg s c).isNone)).length

/-! ## Lemmas about the encoder -/

/-- Digit decoding is a left inverse of digit encoding on the 62-symbol
alphabet. -/
lemma decode_getident : ∀ d : Nat, d < BASE → decodeChar (getidentChar d) = d := by decide

/-- For an in-range identifier, decoding the encoded digit string recovers
the identifier (the mixed-radix decomposition is correct). -/
lemma decodeChars_encodeChars (n : Nat) (h : n < MAX_IDENT) :
    decodeChars (encodeChars n) = n := by
  have hM : MAX_IDENT = 238328 := rfl
  rw [hM] at h
  have hq := Nat.div_add_mod n 62
  have hq2 := Nat.div_add_mod (n / 62) 62
  have hr : n % 62 < 62 := Nat.mod_lt _ (by omega)
  have hr2 : n / 62 % 62 < 62 := Nat.mod_lt _ (by omega)
  have htop : n / 62 / 62 < 62 := by omega
  by_cases h2 : n / 62 / 62 = 0
  · by_cases h1 : n / 62 = 0
    · have hn : n < 62 := by omega
      simp [encodeChars, decodeChars, BASE, h1, h2, decode_getident n (by simp [BASE]; omega)]
    · have hlow : n - n / 62 * 62 = n % 62 := by omega
      simp [encodeChars, decodeChars, BASE, h1, h2, hlow,
            decode_getident _ (by simp [BASE]; omega : n / 62 < BASE),
            decode_getident _ (by simp [BASE]; omega : n % 62 < BASE)]
      omega
  · have hmid : n / 62 ≠ 0 := by omega
    have hsub : n / 62 - n / 62 / 62 * 62 = n / 62 % 62 := by omega
    have hlow : n - n / 62 / 62 * 62 * 62 - n / 62 % 62 * 62 = n % 62 := by omega
    simp [encodeChars, decodeChars, BASE, h2, hmid, hsub, hlow,
          decode_getident _ (by simp [BASE]; omega : n / 62 / 62 < BASE),
          decode_getident _ (by simp [BASE]; omega : n / 62 % 62 < BASE),
          decode_getident _ (by simp [BASE]; omega : n % 62 < BASE)]
    omega

/-- C1: The identifier encoding function (get_next_ident) is injective on
the range [0, 62^3): distinct in-range integers encode to distinct
strings. -/
theorem c1_encoder_injective (m n : Nat) (hm : m < MAX_IDENT) (hn : n < MAX_IDENT)
    (hne : m ≠ n) : get_next_ident m ≠ get_next_ident n := by
  intro he
  apply hne
  have hm' : identGuard m = true := by
    simp only [identGuard, decide_eq_true_eq]; omega
  have hn' : identGuard n = true := by
    simp only [identGuard, decide_eq_true_eq]; omega
  simp only [get_next_ident, hm', hn', if_true, Option.some.injEq] at he
  have he' : encodeChars m = encodeChars n := congrArg String.data he
  calc m = decodeChars (encodeChars m) := (decodeChars_encodeChars m hm).symm
    _ = decodeChars (encodeChars n) := by rw [he']
    _ = n := decodeChars_encodeChars n hn

/-- Witness for C1 at the concrete pair (0, 1). -/
theorem c1_encoder_injective_witness : get_next_ident 0 ≠ get_next_ident 1 :=
  c1_encoder_injective 0 1 (by decide) (by decide) (by decide)

/-- C7: The exact encoder values pinned by the spec: 0→"0", 9→"9",
10→"A", 35→"Z", 36→"a", 61→"z", 62→"10". -/
theorem c7_encoder_values :
    get_next_ident 0 = some "0" ∧ get_next_ident 9 = some "9" ∧
    get_next_ident 10 = some "A" ∧ get_next_ident 35 = some "Z" ∧
    get_next_ident 36 = some "a" ∧ get_next_ident 61 = some "z" ∧
    get_next_ident 62 = some "10" := by decide

/-- C6 (code bug): at n = 62^3 — the first integer OUTSIDE the identifier
range — the fatal guard `num <= MAX_IDENT` still passes (the comparison
should be strict), and getident is invoked with top digit 62, violating
getident's own assertion `num < BASE`; the release-mode arithmetic then
produces the out-of-alphabet byte 0x7b. -/
theorem c6_overflow_guard_off_by_one :
    identGuard MAX_IDENT = true ∧
    getidentPre (MAX_IDENT / BASE / BASE) = false ∧
    get_next_ident MAX_IDENT = some "\x7b00" := by decide

/-! ## The decision engine runs the detectors in priority order -/

/-- The translated eval_classes body computes exactly the first match of
the eleven detectors in priority order. -/
lemma evalClass_eq_firstMatch (cfg : ConfigM) (s : DontRenameSetsM) (c : ClassM) :
    evalClass cfg s c = firstMatch cfg s c := by
  unfold evalClass firstMatch detectorOrder detectorResult
  simp only [List.findSome?_cons, List.findSome?_nil]
  cases hA : (!cfg.renameAnnotations && c.isAnnotation)
  · simp only [hA, Bool.false_eq_true, if_false, Option.map_none, Option.map_some]
    cases hB : List.find? (fun anno => hasAnno c anno) s.annotated
    · simp only [hB, Option.map_none]
      cases hC : s.resources.contains c.name
      · simp only [hC, Bool.false_eq_true, if_false, Option.map_none]
        cases hD : cfg.dontRenameSpecific.contains c.name
        · simp only [hD, Bool.false_eq_true, if_false, Option.map_none]
          cases hE : List.find? (fun pkg => rfindZero c.name ("L" ++ pkg)) cfg.dontRenamePackages
          · simp only [hE, Option.map_none]
            cases hF : s.forNameLiterals.contains c.name
            · simp only [hF, Bool.false_eq_true, if_false, Option.map_none]
              cases hG : s.typesWithReflection.contains c.name
              · simp only [hG, Bool.false_eq_true, if_false, Option.map_none]
                cases hH : s.canaries.contains c.name
                · simp only [hH, Bool.false_eq_true, if_false, Option.map_none]
                  cases hI : s.nativeBindings.contains c.name
                  · simp only [hI, Bool.false_eq_true, if_false, Option.map_none]
                    cases hJ : s.hierarchies.lookup c.name
                    · simp only [hJ, Option.map_none]
                      cases hK : c.canRenameIfIgnoringBlanketKeep <;> simp [hK]
                    · simp [hJ]
                  · simp [hI]
                · simp [hH]
              · simp [hG]
            · simp [hF]
          · simp [hE]
        · simp [hD]
      · simp [hC]
    · simp [hB]
  · simp [hA]

/-- Unfolding of the decision map on a class with no matching detector. -/
lemma evalClasses_cons_none (cfg : ConfigM) (s : DontRenameSetsM) (c : ClassM)
    (rest : List ClassM) (h : evalClass cfg s c = none) :
    evalClasses cfg s (c :: rest) = evalClasses cfg s rest := by
  simp [evalClasses, List.filterMap_cons, h]

/-- Unfolding of the decision map on a class with a matching detector. -/
lemma evalClasses_cons_some (cfg : ConfigM) (s : DontRenameSetsM) (c : ClassM)
    (rest : List ClassM) (v : DontRenameReasonCode × String)
    (h : evalClass cfg s c = some v) :
    evalClasses cfg s (c :: rest) = (c.name, v) :: evalClasses cfg s rest := by
  simp [evalClasses, List.filterMap_cons, h]

/-- Classes whose name differs from cname contribute no record keyed
cname. -/
lemma evalClasses_no_key (cfg : ConfigM) (s : DontRenameSetsM) (cname : String) :
    ∀ rest : List ClassM, (∀ c' ∈ rest, c'.name ≠ cname) →
      (evalClasses cfg s rest).lookup cname = none ∧
      (evalClasses cfg s rest).countP (fun p => p.1 == cname) = 0 := by
  intro rest
  induction rest with
  | nil => intro _; simp [evalClasses]
  | cons e r ih =>
    intro h
    have he : (cname == e.name) = false :=
      beq_eq_false_iff_ne.mpr (Ne.symm (h e (List.mem_cons_self e r)))
    have he2 : (e.name == cname) = false :=
      beq_eq_false_iff_ne.mpr (h e (List.mem_cons_self e r))
    have hr := ih (fun c' hm => h c' (List.mem_cons_of_mem e hm))
    cases hres : evalClass cfg s e with
    | none =>
      rw [evalClasses_cons_none cfg s e r hres]
      exact hr
    | some v =>
      rw [evalClasses_cons_some cfg s e r v hres]
      refine ⟨?_, ?_⟩
      · simp only [List.lookup, he]
        exact hr.1
      · simp only [List.countP_cons, he2]
        simpa using hr.2

/-- With pairwise-distinct class identities and names, the decision map
holds the evalClass result for a class, as its unique record. -/
lemma evalClasses_lookup (cfg : ConfigM) (s : DontRenameSetsM) :
    ∀ (scope : List ClassM) (c : ClassM), c ∈ scope → scope.Nodup →
      (∀ c' ∈ scope, c'.name = c.name → c' = c) →
      (evalClasses cfg s scope).lookup c.name = evalClass cfg s c ∧
      (evalClasses cfg s scope).countP (fun p => p.1 == c.name) ≤ 1 := by
  intro scope
  induction scope with
  | nil => intro c hc; exact absurd hc (List.not_mem_nil c)
  | cons d rest ih =>
    intro c hc hnd hu
    by_cases hdc : d = c
    · subst hdc
      have hnotin : d ∉ rest := (List.nodup_cons.mp hnd).1
      have hrest : ∀ c' ∈ rest, c'.name ≠ d.name := by
        intro c' hm hn
        exact hnotin (hu c' (List.mem_cons_of_mem d hm) hn ▸ hm)
      have hno := evalClasses_no_key cfg s d.name rest hrest
      cases hres : evalClass cfg s d with
      | none =>
        rw [evalClasses_cons_none cfg s d rest hres]
        exact ⟨hno.1, by simp [hno.2]⟩
      | some v =>
        rw [evalClasses_cons_some cfg s d rest v hres]
        refine ⟨?_, ?_⟩
        · simp [List.lookup]
        · simp only [List.countP_cons, beq_self_eq_true, if_true]
          simp [hno.2]
    · have hcr : c ∈ rest := by
        cases hc with
        | head => exact absurd rfl hdc
        | tail _ hm => exact hm
      have hdn : (d.name == c.name) = false := by
        refine beq_eq_false_iff_ne.mpr ?_
        intro hn
        exact hdc (hu d (List.mem_cons_self d rest) hn)
      have hdn2 : (c.name == d.name) = false := by
        rw [BEq.comm]
        exact hdn
      have hrec := ih c hcr (List.Nodup.of_cons hnd)
        (fun c' hm hn => hu c' (List.mem_cons_of_mem d hm) hn)
      cases hres : evalClass cfg s d with
      | none =>
        rw [evalClasses_cons_none cfg s d rest hres]
        exact hrec
      | some v =>
        rw [evalClasses_cons_some cfg s d rest v hres]
        refine ⟨?_, ?_⟩
        · simp only [List.lookup, hdn2]
          exact hrec.1
        · simp only [List.countP_cons, hdn]
          simpa using hrec.2

/-- C2: for every class in scope the exclusion decision equals the first
match of the eleven detectors in the fixed priority order (Annotations,
Annotated, Resources, Specific, Packages, ClassForNameLiterals,
ClassForTypesWithReflection, Canaries, NativeBindings, Hierarchy,
ProguardCantRename); the class's record in the decision map is that first
match (none for classes matching no detector) and each class has at most
one record. -/
theorem c2_priority_order (cfg : ConfigM) (s : DontRenameSetsM) (scope : List ClassM)
    (c : ClassM) (hc : c ∈ scope) (hnd : scope.Nodup)
    (hu : ∀ c' ∈ scope, c'.name = c.name → c' = c) :
    evalClass cfg s c = firstMatch cfg s c ∧
    (evalClasses cfg s scope).lookup c.name = firstMatch cfg s c ∧
    (evalClasses cfg s scope).countP (fun p => p.1 == c.name) ≤ 1 := by
  have h1 := evalClass_eq_firstMatch cfg s c
  have h2 := evalClasses_lookup cfg s scope c hc hnd hu
  exact ⟨h1, h1 ▸ h2.1, h2.2⟩

/-- A class with every field defaulted, used by concrete witnesses. -/
def plainClass (nm : String) : ClassM :=
  { name := nm, deobfName := nm, isAnnotation := false, isExternal := false,
    access := 0, annos := [], dmethods := [], vmethods := [], sfields := [],
    ifields := [], canRenameIfIgnoringBlanketKeep := true }

/-- The empty configuration. -/
def cfg0 : ConfigM :=
  { renameAnnotations := true, dontRenameSpecific := [], dontRenamePackages := [],
    dontRenameAnnotated := [], dontRenameTypesWithReflection := [],
    dontRenameHierarchies := [] }

/-- Empty collaborator inputs. -/
def ext0 : ExternalM := ⟨[], [], [], []⟩

/-- Empty dont_rename sets. -/
def sets0 : DontRenameSetsM := ⟨[], [], [], [], [], [], []⟩

/-- Witness for C2 on a concrete one-class scope with a Specific rule. -/
theorem c2_priority_order_witness :
    evalClass { cfg0 with dontRenameSpecific := ["LFoo;"] } sets0 (plainClass "LFoo;") =
      firstMatch { cfg0 with dontRenameSpecific := ["LFoo;"] } sets0 (plainClass "LFoo;") ∧
    (evalClasses { cfg0 with dontRenameSpecific := ["LFoo;"] } sets0
        [plainClass "LFoo;"]).lookup "LFoo;" =
      firstMatch { cfg0 with dontRenameSpecific := ["LFoo;"] } sets0 (plainClass "LFoo;") ∧
    (evalClasses { cfg0 with dontRenameSpecific := ["LFoo;"] } sets0
        [plainClass "LFoo;"]).countP (fun p => p.1 == "LFoo;") ≤ 1 := by
  have h := c2_priority_order { cfg0 with dontRenameSpecific := ["LFoo;"] } sets0
    [plainClass "LFoo;"] (plainClass "LFoo;") (by decide) (by decide) (by decide)
  simpa using h

/-! ## Rule-detail contents of decision records -/

/-- A successful association-list lookup comes from an entry of the list. -/
lemma lookup_mem {β : Type} (l : List (String × β)) (k : String) (v : β)
    (h : l.lookup k = some v) : (k, v) ∈ l := by
  induction l with
  | nil => simp [List.lookup] at h
  | cons p t ih =>
    obtain ⟨a, b⟩ := p
    simp only [List.lookup] at h
    by_cases hk : (k == a) = true
    · simp only [hk] at h
      have hk' : k = a := eq_of_beq hk
      have hv : b = v := by injection h
      subst hk'; subst hv
      exact List.mem_cons_self _ _
    · have hkf : (k == a) = false := by simpa using hk
      simp only [hkf] at h
      exact List.mem_cons_of_mem _ (ih h)

/-- A matched decision carries the detector's own result. -/
lemma evalClass_detectorResult (cfg : ConfigM) (s : DontRenameSetsM) (c : ClassM)
    (code : DontRenameReasonCode) (rule : String)
    (h : evalClass cfg s c = some (code, rule)) :
    detectorResult cfg s c code = some rule := by
  rw [evalClass_eq_firstMatch] at h
  obtain ⟨r, _, hr⟩ := List.exists_of_findSome?_eq_some h
  rw [Option.map_eq_some'] at hr
  obtain ⟨d, hd, hpair⟩ := hr
  have hrc : r = code := congrArg Prod.fst hpair
  have hdr : d = rule := congrArg Prod.snd hpair
  subst hrc; subst hdr
  exact hd

/-- C5 (amended): the rule-detail of a decision record is the class's own
name for Specific, the matched annotation type for Annotated, the matched
package prefix for Packages, the matched root name for Hierarchy, and the
empty string for every other ReasonCode. -/
theorem c5_rule_detail (cfg : ConfigM) (s : DontRenameSetsM) (c : ClassM)
    (code : DontRenameReasonCode) (rule : String)
    (h : evalClass cfg s c = some (code, rule)) :
    (code = .Specific → rule = c.name) ∧
    (code = .Annotated → rule ∈ s.annotated ∧ hasAnno c rule = true) ∧
    (code = .Packages → rule ∈ cfg.dontRenamePackages ∧
       rfindZero c.name ("L" ++ rule) = true) ∧
    (code = .Hierarchy → (c.name, rule) ∈ s.hierarchies) ∧
    (code ≠ .Annotated → code ≠ .Packages → code ≠ .Hierarchy → code ≠ .Specific →
       rule = "") := by
  have hd := evalClass_detectorResult cfg s c code rule h
  cases code <;> simp only [detectorResult] at hd
  case Specific =>
    refine ⟨fun _ => ?_, by simp, by simp, by simp, fun _ _ _ hn => absurd rfl hn⟩
    split at hd
    · injection hd with hv; exact hv.symm
    · cases hd
  case Annotated =>
    refine ⟨by simp, fun _ => ?_, by simp, by simp, fun hn _ _ _ => absurd rfl hn⟩
    exact ⟨List.mem_of_find?_eq_some hd, List.find?_some hd⟩
  case Packages =>
    refine ⟨by simp, by simp, fun _ => ?_, by simp, fun _ hn _ _ => absurd rfl hn⟩
    exact ⟨List.mem_of_find?_eq_some hd, by simpa using List.find?_some hd⟩
  case Hierarchy =>
    refine ⟨by simp, by simp, by simp, fun _ => ?_, fun _ _ hn _ => absurd rfl hn⟩
    exact lookup_mem s.hierarchies c.name rule hd
  all_goals {
    refine ⟨by simp, by simp, by simp, by simp, fun _ _ _ _ => ?_⟩
    split at hd
    · injection hd with hv; exact hv.symm
    · cases hd
  }

/-- Witness for C5 at a concrete Packages match. -/
theorem c5_rule_detail_witness :
    (DontRenameReasonCode.Packages = .Specific → "com/pkg/" = (plainClass "Lcom/pkg/A;").name) ∧
    (DontRenameReasonCode.Packages = .Annotated →
       "com/pkg/" ∈ sets0.annotated ∧ hasAnno (plainClass "Lcom/pkg/A;") "com/pkg/" = true) ∧
    (DontRenameReasonCode.Packages = .Packages →
       "com/pkg/" ∈ ({ cfg0 with dontRenamePackages := ["com/pkg/"] } : ConfigM).dontRenamePackages ∧
       rfindZero (plainClass "Lcom/pkg/A;").name ("L" ++ "com/pkg/") = true) ∧
    (DontRenameReasonCode.Packages = .Hierarchy →
       ((plainClass "Lcom/pkg/A;").name, "com/pkg/") ∈ sets0.hierarchies) ∧
    (DontRenameReasonCode.Packages ≠ .Annotated → DontRenameReasonCode.Packages ≠ .Packages →
       DontRenameReasonCode.Packages ≠ .Hierarchy → DontRenameReasonCode.Packages ≠ .Specific →
       "com/pkg/" = "") :=
  c5_rule_detail { cfg0 with dontRenamePackages := ["com/pkg/"] } sets0
    (plainClass "Lcom/pkg/A;") .Packages "com/pkg/" (by decide)

/-- C5 counterexample: a class excluded by the Specific blacklist gets its
own (non-empty) name as rule-detail, contradicting the claim that the
rule-detail is empty for Specific. -/
theorem c5_specific_nonempty_counterexample :
    evalClass { cfg0 with dontRenameSpecific := ["LFoo;"] } sets0 (plainClass "LFoo;") =
      some (.Specific, "LFoo;") ∧ ("LFoo;" : String) ≠ "" := by decide

/-! ## Reflection-based exclusion comes only from resolved concrete call sites -/

/-- Bool containment agrees with list membership for strings. -/
lemma contains_iff_mem (l : List String) (a : String) : l.contains a = true ↔ a ∈ l := by
  simp [List.contains_iff_exists_mem_beq]

/-- Shape of an instruction counted by the reflection walker: an invoke
whose method reference resolves (non-null), is concrete and is declared on
a recorded reflection type. -/
lemma reflHit_spec (rt : List String) (i : InsnM) :
    reflHit rt i = true ↔
      ∃ st srcs r, i = InsnM.invoke st srcs (some r) ∧ r.concrete = true ∧
        rt.contains r.cls = true := by
  cases i with
  | constString d lit => simp [reflHit]
  | other => simp [reflHit]
  | invoke st srcs callee =>
    cases callee with
    | none => simp [reflHit]
    | some r => simp [reflHit, Bool.and_eq_true, and_assoc]

/-- Membership in the reflection caller set unravels to a matching call
site inside the named class. -/
lemma mem_reflCallers (rt : List String) (scope : List ClassM) (nm : String) :
    nm ∈ reflCallers rt scope ↔
      ∃ c' ∈ scope, c'.name = nm ∧ ∃ m ∈ methodsOf c', ∃ i ∈ m.insns,
        reflHit rt i = true := by
  simp only [reflCallers, List.mem_flatMap, List.mem_filterMap]
  constructor
  · rintro ⟨c', hc', m, hm, i, hi, hif⟩
    by_cases hh : reflHit rt i = true
    · rw [if_pos hh] at hif
      injection hif with hn
      exact ⟨c', hc', hn, m, hm, i, hi, hh⟩
    · rw [if_neg hh] at hif
      cases hif
  · rintro ⟨c', hc', hn, m, hm, i, hi, hh⟩
    exact ⟨c', hc', m, hm, i, hi, by rw [if_pos hh, hn]⟩

/-- C10: a ClassForTypesWithReflection record for a class comes only from
an instruction of one of its own methods invoking a method reference that
resolves to a concrete method declared on one of the configured
(deobfuscation-translated, type-resolved) reflection types; unresolved or
non-concrete call sites never produce this record. -/
theorem c10_reflection_only_concrete (cfg : ConfigM) (ext : ExternalM) (scope : List ClassM)
    (c : ClassM) (rule : String) (hc : c ∈ scope)
    (hu : ∀ c' ∈ scope, c'.name = c.name → c' = c)
    (h : evalClass cfg (buildSets cfg ext scope) c =
          some (.ClassForTypesWithReflection, rule)) :
    ∃ m ∈ methodsOf c, ∃ i ∈ m.insns, ∃ st srcs r,
      i = InsnM.invoke st srcs (some r) ∧ r.concrete = true ∧
      r.cls ∈ reflTypes cfg ext := by
  have hd := evalClass_detectorResult cfg (buildSets cfg ext scope) c
    .ClassForTypesWithReflection rule h
  simp only [detectorResult] at hd
  have hcontains : (buildSets cfg ext scope).typesWithReflection.contains c.name = true := by
    by_cases hb : (buildSets cfg ext scope).typesWithReflection.contains c.name = true
    · exact hb
    · rw [if_neg (by simpa using hb)] at hd; cases hd
  have hmem : c.name ∈ buildRefl cfg ext scope := by
    rw [← contains_iff_mem]
    exact hcontains
  rw [buildRefl, mem_reflCallers] at hmem
  obtain ⟨c', hc', hn, m, hm, i, hi, hh⟩ := hmem
  have hcc : c' = c := hu c' hc' hn
  subst hcc
  obtain ⟨st, srcs, r, hshape, hconc, hcls⟩ := (reflHit_spec _ _).mp hh
  exact ⟨m, hm, i, hi, st, srcs, r, hshape, hconc, (contains_iff_mem _ _).mp hcls⟩

/-- Concrete reflective caller used by the C10 witness. -/
def reflCallerClass : ClassM :=
  { plainClass "LCaller;" with
      dmethods := [{ access := 0, rtype := "V", args := [], annos := [],
                     insns := [InsnM.invoke false [0]
                       (some { cls := "Lcom/X;", mname := "foo", concrete := true })] }] }

/-- Witness for C10: one-class scope whose single method calls a concrete
method of the configured reflection type Lcom/X;. -/
theorem c10_reflection_only_concrete_witness :
    ∃ m ∈ methodsOf reflCallerClass, ∃ i ∈ m.insns, ∃ st srcs r,
      i = InsnM.invoke st srcs (some r) ∧ r.concrete = true ∧
      r.cls ∈ reflTypes { cfg0 with dontRenameTypesWithReflection := ["Lcom/X;"] }
        { ext0 with knownTypes := ["Lcom/X;"] } :=
  c10_reflection_only_concrete
    { cfg0 with dontRenameTypesWithReflection := ["Lcom/X;"] }
    { ext0 with knownTypes := ["Lcom/X;"] }
    [reflCallerClass] reflCallerClass "" (by decide) (by decide) (by decide)

/-! ## Native-binding exclusions -/

/-- Entries contributed by a single method to the native-bindings set. -/
lemma mem_nbOfMethod (cname x : String) (m : MethodM) :
    x ∈ nbOfMethod cname m ↔
      isNative m = true ∧ (x = cname ∨ x = m.rtype ∨
        ∃ a ∈ m.args, (if isArrayName a then getArrayTypeName a else a) = x) := by
  unfold nbOfMethod
  split
  next h => simp [h, List.mem_cons, List.mem_map]
  next h => simp [h]

/-- A NativeBindings decision requires set membership of the class name. -/
lemma evalClass_nb (cfg : ConfigM) (s : DontRenameSetsM) (c : ClassM) (rule : String)
    (h : evalClass cfg s c = some (.NativeBindings, rule)) :
    s.nativeBindings.contains c.name = true := by
  have hd := evalClass_detectorResult cfg s c .NativeBindings rule h
  simp only [detectorResult] at hd
  by_cases hb : s.nativeBindings.contains c.name = true
  · exact hb
  · rw [if_neg (by simpa using hb)] at hd; cases hd

/-- C4 (amended): the native-bindings set contains exactly the declaring
classes of native methods, their return types AS DECLARED (no array
unwrapping on return types, so for an array return type the element class
is not recorded), and their argument types with exactly one array
dimension stripped; a class is excluded with reason NativeBindings only if
its own name is in that set. -/
theorem c4_native_bindings_set (scope : List ClassM) (x : String) :
    (x ∈ buildNB scope ↔ ∃ c ∈ scope, ∃ m ∈ methodsOf c, isNative m = true ∧
      (x = c.name ∨ x = m.rtype ∨
        ∃ a ∈ m.args, (if isArrayName a then getArrayTypeName a else a) = x)) ∧
    (∀ (cfg : ConfigM) (s : DontRenameSetsM) (c : ClassM) (rule : String),
      evalClass cfg { s with nativeBindings := buildNB scope } c =
        some (.NativeBindings, rule) → c.name ∈ buildNB scope) := by
  constructor
  · simp only [buildNB, List.mem_flatMap, List.mem_append, mem_nbOfMethod, methodsOf]
    constructor
    · rintro ⟨c, hc, hcase⟩
      cases hcase with
      | inl hd =>
        obtain ⟨m, hm, hr⟩ := hd
        exact ⟨c, hc, m, Or.inl hm, hr⟩
      | inr hv =>
        obtain ⟨m, hm, hr⟩ := hv
        exact ⟨c, hc, m, Or.inr hm, hr⟩
    · rintro ⟨c, hc, m, hm, hp⟩
      refine ⟨c, hc, ?_⟩
      cases hm with
      | inl hd => exact Or.inl ⟨m, hd, hp⟩
      | inr hv => exact Or.inr ⟨m, hv, hp⟩
  · intro cfg s c rule h
    exact (contains_iff_mem _ _).mp (evalClass_nb cfg _ c rule h)

/-- The native method of scenario C: return type array-of-T, argument a
two-level-nested array of U. -/
def natMethodN : MethodM :=
  { access := 0x100, rtype := "[LT;", args := ["[[LU;"], insns := [], annos := [] }

/-- Class N declaring the native method. -/
def clsN : ClassM := { plainClass "LN;" with dmethods := [natMethodN] }

/-- Class T (element type of the native method's array return type). -/
def clsT : ClassM := plainClass "LT;"

/-- Class U (element type of the doubly-nested array argument). -/
def clsU : ClassM := plainClass "LU;"

/-- The three-class scope of scenario C. -/
def scopeC4 : List ClassM := [clsN, clsT, clsU]

/-- Witness for C4: the declaring class's own name is in the set, via the
eval direction of the theorem at a concrete NativeBindings decision. -/
theorem c4_native_bindings_set_witness : clsN.name ∈ buildNB scopeC4 :=
  (c4_native_bindings_set scopeC4 clsN.name).2 cfg0 sets0 clsN "" (by decide)

/-- C4 counterexample: N declares a native method returning array-of-T
(and taking a two-level array of U); N is excluded with NativeBindings but
T gets NO record (the return type is inserted as the array type "[LT;",
never unwrapped to "LT;"), contradicting the claim that T is excluded; U
gets no record either. -/
theorem c4_return_type_counterexample :
    isNative natMethodN = true ∧
    natMethodN.rtype = "[" ++ clsT.name ∧
    natMethodN.args = ["[" ++ ("[" ++ clsU.name)] ∧
    clsT ∈ scopeC4 ∧
    evalClass cfg0 (buildSets cfg0 ext0 scopeC4) clsN = some (.NativeBindings, "") ∧
    evalClass cfg0 (buildSets cfg0 ext0 scopeC4) clsT = none ∧
    evalClass cfg0 (buildSets cfg0 ext0 scopeC4) clsU = none := by decide

/-! ## Commit-phase visibility normalisation (C9) -/

/-- Replacing the visibility bits with ACC_PUBLIC leaves the low three
bits equal to ACC_PUBLIC. -/
lemma vis_replaced_public (v : Nat) : ((v &&& 0xFFFFFFF8) ||| 1) % 8 = 1 := by
  have h8 : (8:Nat) = 2^3 := rfl
  apply Nat.eq_of_testBit_eq
  intro i
  rw [h8, Nat.testBit_mod_two_pow, Nat.testBit_lor, Nat.testBit_land]
  have hone : ∀ k, Nat.testBit 1 k = decide (0 = k) := by
    intro k
    have h := @Nat.testBit_two_pow 0 k
    simpa using h
  match i with
  | 0 => simp
  | 1 => simp [show Nat.testBit 0xFFFFFFF8 1 = false from by decide, hone]
  | 2 => simp [show Nat.testBit 0xFFFFFFF8 2 = false from by decide, hone]
  | (n+3) => simp [show ¬ (n+3 < 3) from by omega, hone]

/-- Relation: the output annotation is the input one with every
accessFlags element of an InnerClass annotation forced to public
visibility. -/
def annoFixed (ain aout : AnnoM) : Prop :=
  ain.atype = "Ldalvik/annotation/InnerClass;" →
    List.Forall₂ (fun (ein eout : AnnoElemM) =>
      ein.ename = "accessFlags" →
        eout.value = fixInnerVisibility ein.value ∧ eout.value % 8 = ACC_PUBLIC)
      ain.elems aout.elems

/-- Relation: a package-protected method came out public, any other
method kept its flags; annotations fixed. -/
def methodPublicized (min mout : MethodM) : Prop :=
  (isPackageProtected min.access = true →
     mout.access = setPublicAcc min.access ∧ mout.access % 8 = ACC_PUBLIC) ∧
  (isPackageProtected min.access = false → mout.access = min.access) ∧
  List.Forall₂ annoFixed min.annos mout.annos

/-- Relation: a package-protected field came out public, any other field
kept its flags; annotations fixed. -/
def fieldPublicized (fin fout : FieldM) : Prop :=
  (isPackageProtected fin.access = true →
     fout.access = setPublicAcc fin.access ∧ fout.access % 8 = ACC_PUBLIC) ∧
  (isPackageProtected fin.access = false → fout.access = fin.access) ∧
  List.Forall₂ annoFixed fin.annos fout.annos

/-- Relation: a non-external class came out public, an external one kept
its flags; all members and annotations treated as above. -/
def classPublicized (cin cout : ClassM) : Prop :=
  (cin.isExternal = false → cout.access = setPublicAcc cin.access ∧
     cout.access % 8 = ACC_PUBLIC) ∧
  (cin.isExternal = true → cout.access = cin.access) ∧
  List.Forall₂ methodPublicized cin.dmethods cout.dmethods ∧
  List.Forall₂ methodPublicized cin.vmethods cout.vmethods ∧
  List.Forall₂ fieldPublicized cin.sfields cout.sfields ∧
  List.Forall₂ fieldPublicized cin.ifields cout.ifields ∧
  List.Forall₂ annoFixed cin.annos cout.annos

/-- unpackAnno realises annoFixed. -/
lemma annoFixed_unpack (a : AnnoM) : annoFixed a (unpackAnno a) := by
  intro hin
  unfold unpackAnno
  rw [if_pos (by simpa using hin)]
  simp only [List.forall₂_map_right_iff, List.forall₂_same]
  intro e _ he
  rw [if_pos (by simpa using he)]
  exact ⟨rfl, vis_replaced_public e.value⟩

/-- unpackMethod realises methodPublicized. -/
lemma methodPublicized_unpack (m : MethodM) : methodPublicized m (unpackMethod m) := by
  refine ⟨?_, ?_, ?_⟩
  · intro h
    constructor
    · simp [unpackMethod, h]
    · simp only [unpackMethod, h, if_true]
      simpa [setPublicAcc, ACC_PUBLIC] using vis_replaced_public m.access
  · intro h
    simp [unpackMethod, h]
  · simp only [unpackMethod, List.forall₂_map_right_iff, List.forall₂_same]
    intro a _
    exact annoFixed_unpack a

/-- unpackField realises fieldPublicized. -/
lemma fieldPublicized_unpack (f : FieldM) : fieldPublicized f (unpackField f) := by
  refine ⟨?_, ?_, ?_⟩
  · intro h
    constructor
    · simp [unpackField, h]
    · simp only [unpackField, h, if_true]
      simpa [setPublicAcc, ACC_PUBLIC] using vis_replaced_public f.access
  · intro h
    simp [unpackField, h]
  · simp only [unpackField, List.forall₂_map_right_iff, List.forall₂_same]
    intro a _
    exact annoFixed_unpack a

/-- applyAlias changes only the name. -/
lemma applyAlias_preserves (rn : List (String × String)) (c : ClassM) :
    (applyAlias rn c).access = c.access ∧ (applyAlias rn c).isExternal = c.isExternal ∧
    (applyAlias rn c).dmethods = c.dmethods ∧ (applyAlias rn c).vmethods = c.vmethods ∧
    (applyAlias rn c).sfields = c.sfields ∧ (applyAlias rn c).ifields = c.ifields ∧
    (applyAlias rn c).annos = c.annos := by
  unfold applyAlias
  split <;> exact ⟨rfl, rfl, rfl, rfl, rfl, rfl, rfl⟩

/-- applyAlias after unpackClass realises classPublicized. -/
lemma classPublicized_unpack (rn : List (String × String)) (c : ClassM) :
    classPublicized c (applyAlias rn (unpackClass c)) := by
  obtain ⟨h1, h2, h3, h4, h5, h6, h7⟩ := applyAlias_preserves rn (unpackClass c)
  refine ⟨?_, ?_, ?_, ?_, ?_, ?_, ?_⟩
  · intro h
    rw [h1]
    constructor
    · simp [unpackClass, h]
    · simp only [unpackClass, h, if_false]
      simpa [setPublicAcc, ACC_PUBLIC] using vis_replaced_public c.access
  · intro h
    rw [h1]
    simp [unpackClass, h]
  · rw [h3]
    simp only [unpackClass, List.forall₂_map_right_iff, List.forall₂_same]
    intro m _
    exact methodPublicized_unpack m
  · rw [h4]
    simp only [unpackClass, List.forall₂_map_right_iff, List.forall₂_same]
    intro m _
    exact methodPublicized_unpack m
  · rw [h5]
    simp only [unpackClass, List.forall₂_map_right_iff, List.forall₂_same]
    intro f _
    exact fieldPublicized_unpack f
  · rw [h6]
    simp only [unpackClass, List.forall₂_map_right_iff, List.forall₂_same]
    intro f _
    exact fieldPublicized_unpack f
  · rw [h7]
    simp only [unpackClass, List.forall₂_map_right_iff, List.forall₂_same]
    intro a _
    exact annoFixed_unpack a

/-- C9: whatever the exclusion decisions and padding, the classes
resulting from the commit phase stand in the classPublicized relation to
the input scope: every non-external class has been made public, every
package-protected method and field has been made public, and the
accessFlags element of every dalvik.annotation.InnerClass annotation has
its visibility bits replaced with ACC_PUBLIC (renaming changes names
only). -/
theorem c9_commit_publicizes (decided : String → Bool) (padding : Nat)
    (scope : List ClassM) :
    List.Forall₂ classPublicized scope (renameClasses decided padding scope).classes := by
  show List.Forall₂ classPublicized scope ((unpackagePrivate scope).map (applyAlias _))
  unfold unpackagePrivate
  rw [List.map_map, List.forall₂_map_right_iff, List.forall₂_same]
  intro c _
  exact classPublicized_unpack _ c

/-! ## Padding and descriptor widths (C3) -/

/-- One-digit encodings. -/
lemma encLen_one (n : Nat) (h : n < 62) : (encodeChars n).length = 1 := by
  have h1 : n / 62 = 0 := by omega
  have h2 : n / 62 / 62 = 0 := by omega
  simp [encodeChars, BASE, h1, h2]

/-- At most two digits below 62^2. -/
lemma encLen_le_two (n : Nat) (h : n < 3844) : (encodeChars n).length ≤ 2 := by
  have h2 : n / 62 / 62 = 0 := by omega
  by_cases h1 : n / 62 = 0
  · simp [encodeChars, BASE, h1, h2]
  · simp [encodeChars, BASE, h1, h2]

/-- Never more than three digits. -/
lemma encLen_le_three (n : Nat) : (encodeChars n).length ≤ 3 := by
  by_cases h2 : n / 62 / 62 = 0
  · by_cases h1 : n / 62 = 0
    · simp [encodeChars, BASE, h1, h2]
    · simp [encodeChars, BASE, h1, h2]
  · have h1 : n / 62 ≠ 0 := by omega
    simp [encodeChars, BASE, h1, h2]

/-- At least one digit is always emitted. -/
lemma encLen_pos (n : Nat) : 1 ≤ (encodeChars n).length := by
  simp only [encodeChars]
  split <;> split <;> simp

/-- Total length of a generated descriptor. -/
lemma mkDescriptor_length (p i : Nat) :
    (mkDescriptor p i).length =
      4 + (encodeChars i).length +
        min (if p < (encodeChars i).length then 0 else p - (encodeChars i).length) 13 := by
  show ('L' :: 'X' :: '/' :: (paddingTemplate.take _ ++ encodeChars i ++ [';'])).length = _
  simp [paddingTemplate, List.length_take]
  omega

/-- The padding width dominates the class count: total ≤ 62^paddingOf total. -/
lemma le_pow_paddingOf (n : Nat) : n ≤ 62 ^ paddingOf n := by
  unfold paddingOf
  split_ifs with h0 h1 h2 h3
  · simpa using h0.trans (by norm_num)
  · simpa using h1
  · show n ≤ 62 ^ 2
    norm_num
    omega
  · show n ≤ 62 ^ 3
    norm_num
    omega
  · have hlog := Nat.lt_pow_succ_log_self (by norm_num : 1 < 62) (n - 1)
    have hB : BASE = 62 := rfl
    rw [hB]
    omega

/-- Capacity bound: at most three digits of padding below 62^3 classes. -/
lemma paddingOf_le_three (n : Nat) (h : n ≤ MAX_IDENT) : paddingOf n ≤ 3 := by
  have hM : MAX_IDENT = 238328 := rfl
  unfold paddingOf
  split_ifs <;> omega

/-- Positive padding for at least two classes. -/
lemma paddingOf_pos (n : Nat) (h : 2 ≤ n) : 1 ≤ paddingOf n := by
  unfold paddingOf
  split_ifs <;> omega

/-- Encoded length stays within the computed padding. -/
lemma encLen_le_padding (total i : Nat) (h2 : 2 ≤ total) (hT : total ≤ MAX_IDENT)
    (hi : i < total) : (encodeChars i).length ≤ paddingOf total := by
  have hk1 := paddingOf_pos total h2
  have hk3 := paddingOf_le_three total hT
  have hik : i < 62 ^ paddingOf total := lt_of_lt_of_le hi (le_pow_paddingOf total)
  interval_cases h : paddingOf total
  · rw [encLen_one i (by simpa using hik)]
  · refine encLen_le_two i ?_
    have hp : (62:Nat) ^ 2 = 3844 := by norm_num
    omega
  · exact encLen_le_three i

/-- Two descriptors of one run have the same total width. -/
lemma descriptor_width_eq (total i j : Nat) (hT : total ≤ MAX_IDENT)
    (hi : i < total) (hj : j < total) :
    (mkDescriptor (paddingOf total) i).length = (mkDescriptor (paddingOf total) j).length := by
  by_cases h2 : 2 ≤ total
  · have hLi := encLen_le_padding total i h2 hT hi
    have hLj := encLen_le_padding total j h2 hT hj
    have hk3 := paddingOf_le_three total hT
    have hpi := encLen_pos i
    have hpj := encLen_pos j
    rw [mkDescriptor_length, mkDescriptor_length]
    rw [if_neg (by omega), if_neg (by omega)]
    omega
  · have : i = j := by omega
    rw [this]

/-- Every pair produced by the commit loop carries a descriptor for a
sequence number below seq plus the number of classes processed. -/
lemma renameLoop_mem (padding : Nat) (decided : String → Bool) :
    ∀ (cs : List ClassM) (seq : Nat) (p : ClassM × String),
      p ∈ renameLoop padding decided cs seq →
      ∃ i, seq ≤ i ∧ i < seq + cs.length ∧ p.2 = mkDescriptor padding i := by
  intro cs
  induction cs with
  | nil => intro seq p hp; simp [renameLoop] at hp
  | cons c rest ih =>
    intro seq p hp
    by_cases hd : decided c.name = true
    · rw [renameLoop, if_pos hd] at hp
      obtain ⟨i, ha, hb, hc⟩ := ih seq p hp
      exact ⟨i, ha, by simp only [List.length_cons]; omega, hc⟩
    · rw [renameLoop, if_neg hd] at hp
      cases hp with
      | head => exact ⟨seq, le_refl seq, by simp, rfl⟩
      | tail _ hm =>
        obtain ⟨i, ha, hb, hc⟩ := ih (seq + 1) p hm
        exact ⟨i, by omega, by simp only [List.length_cons]; omega, hc⟩

/-- C3 (amended): the padding width is computed once per run from the
TOTAL number of classes in scope (not from the eligible count), and — for
runs within the 62^3 identifier capacity — every descriptor emitted in
the run has equal total width. -/
theorem c3_padding_total_and_equal_width (cfg : ConfigM) (ext : ExternalM)
    (scope : List ClassM) (hT : scope.length ≤ MAX_IDENT) :
    (runPass cfg ext scope).padding = paddingOf scope.length ∧
    (∀ p₁ ∈ (runPass cfg ext scope).commit.renames,
     ∀ p₂ ∈ (runPass cfg ext scope).commit.renames,
       p₁.2.length = p₂.2.length) := by
  constructor
  · rfl
  · intro p1 h1 p2 h2
    have hlen : (unpackagePrivate scope).length = scope.length := by
      simp [unpackagePrivate]
    simp only [runPass, renameClasses, List.mem_map] at h1 h2
    obtain ⟨q1, hq1, he1⟩ := h1
    obtain ⟨q2, hq2, he2⟩ := h2
    obtain ⟨i, _, hib, hdi⟩ := renameLoop_mem _ _ _ _ q1 hq1
    obtain ⟨j, _, hjb, hdj⟩ := renameLoop_mem _ _ _ _ q2 hq2
    rw [hlen] at hib hjb
    rw [← he1, ← he2]
    simp only []
    rw [hdi, hdj]
    exact descriptor_width_eq scope.length i j hT (by omega) (by omega)

/-- Witness for C3's amended statement on a concrete two-class run. -/
theorem c3_padding_total_and_equal_width_witness :
    (runPass cfg0 ext0 [plainClass "LA;", plainClass "LB;"]).padding =
      paddingOf [plainClass "LA;", plainClass "LB;"].length ∧
    (∀ p₁ ∈ (runPass cfg0 ext0 [plainClass "LA;", plainClass "LB;"]).commit.renames,
     ∀ p₂ ∈ (runPass cfg0 ext0 [plainClass "LA;", plainClass "LB;"]).commit.renames,
       p₁.2.length = p₂.2.length) :=
  c3_padding_total_and_equal_width cfg0 ext0 [plainClass "LA;", plainClass "LB;"] (by decide)

/-- Scope of 63 classes for the C3 counterexample. -/
def scopeC3 : List ClassM :=
  (List.range 63).map (fun i => plainClass ("LC" ++ toString i ++ ";"))

/-- Configuration excluding exactly one of the 63 classes. -/
def cfgC3 : ConfigM := { cfg0 with dontRenameSpecific := ["LC62;"] }

/-- C3 counterexample: with 63 classes in scope of which 62 are eligible,
the run uses padding ceil(log62(63)) = 2 computed from the TOTAL count,
not ceil(log62(62)) = 1 from the eligible count; the first emitted
descriptor is "LX/00;", not the "LX/0;" the claim's formula would give. -/
theorem c3_padding_eligible_counterexample :
    (runPass cfgC3 ext0 scopeC3).padding = 2 ∧
    eligibleCount cfgC3 (buildSets cfgC3 ext0 scopeC3) scopeC3 = 62 ∧
    paddingOf 62 = 1 ∧
    ((runPass cfgC3 ext0 scopeC3).commit.renames.head?.map Prod.snd) = some "LX/00;" ∧
    mkDescriptor (paddingOf 62) 0 = "LX/0;" := by decide

/-! ## Determinism of the pass (C8) -/

/-- C8: the pass is a pure function of scope, configuration and
collaborator inputs — two runs over equal scope (same snapshot, hence same
iteration order), equal configuration and equal collaborator inputs
produce equal decision maps and equal commit output, descriptor list and
mapping-file lines included.  No step of the embedded pass required any
source of nondeterminism: every iteration in the source follows the scope
vector or the configuration lists. -/
theorem c8_deterministic (cfg₁ cfg₂ : ConfigM) (ext₁ ext₂ : ExternalM)
    (scope₁ scope₂ : List ClassM) (hc : cfg₁ = cfg₂) (he : ext₁ = ext₂)
    (hs : scope₁ = scope₂) :
    evalClasses cfg₁ (buildSets cfg₁ ext₁ scope₁) scope₁ =
      evalClasses cfg₂ (buildSets cfg₂ ext₂ scope₂) scope₂ ∧
    runPass cfg₁ ext₁ scope₁ = runPass cfg₂ ext₂ scope₂ := by
  subst hc; subst he; subst hs
  exact ⟨rfl, rfl⟩

/-- Witness for C8 on a concrete scope, configuration and inputs. -/
theorem c8_deterministic_witness :
    evalClasses cfgC3 (buildSets cfgC3 ext0 scopeC3) scopeC3 =
      evalClasses cfgC3 (buildSets cfgC3 ext0 scopeC3) scopeC3 ∧
    runPass cfgC3 ext0 scopeC3 = runPass cfgC3 ext0 scopeC3 :=
  c8_deterministic cfgC3 cfgC3 ext0 ext0 scopeC3 scopeC3 rfl rfl rfl

/-- Witness for C9 on a concrete one-class scope carrying a
package-protected method and an InnerClass annotation. -/
theorem c9_commit_publicizes_witness :
    List.Forall₂ classPublicized
      [{ plainClass "LW;" with
           access := 0,
           annos := [{ atype := "Ldalvik/annotation/InnerClass;",
                       elems := [{ ename := "accessFlags", value := 2 }] }],
           dmethods := [{ access := 0, rtype := "V", args := [], insns := [], annos := [] }] }]
      (renameClasses (fun _ => false) 1
        [{ plainClass "LW;" with
             access := 0,
             annos := [{ atype := "Ldalvik/annotation/InnerClass;",
                         elems := [{ ename := "accessFlags", value := 2 }] }],
             dmethods := [{ access := 0, rtype := "V", args := [], insns := [], annos := [] }] }]).classes :=
  c9_commit_publicizes (fun _ => false) 1 _
